import Mathlib

/-!
Verification of the nested (STRUCT) column validity and flatten/unflatten
subsystem, as described by the repository specification and exercised by
`cpp/tests/structs/utilities_tests.cpp`.

The core implementation (`cudf::structs::detail::superimpose_parent_nulls`,
`flatten_nested_columns`, `unflatten_nested_columns`) is not among the
provided source files; only its test-suite is.  The definitions below are
therefore modelled from the specification's component design (sections 3, 4.1,
4.2, 4.3, 7) and checked against the concrete scenarios of the test file.
-/

/-- Modelled from the spec: the `type_id` of a column view.  Fixed-width,
string and dictionary columns are leaves; LIST and STRUCT are nested. -/
inductive ColType where
  | fixed_width
  | string
  | dictionary
  | list
  | struct
  deriving DecidableEq, Repr

/-- Modelled from the spec (section 3, "Validity Bitmask"): a packed
bit-per-row buffer (bit = `true` means valid / non-null) that may begin at a
bit offset when sliced.  The buffer is modelled as a list of booleans and the
offset as the index of the bit of logical row 0. -/
structure Bitmask where
  buf : List Bool
  off : Nat
  deriving DecidableEq, Repr

/-- Modelled from the spec (section 4.1): `bit_is_valid(mask, row)`.
Bits outside the addressable range are treated as valid, matching the
"absence means all rows valid" convention. -/
def bit_is_valid (m : Bitmask) (row : Nat) : Bool :=
  m.buf.getD (m.off + row) true

/-- Validity of logical row `row` under an optional bitmask: a missing
bitmask means "all rows valid". -/
def valid_at (v : Option Bitmask) (row : Nat) : Bool :=
  match v with
  | none => true
  | some m => bit_is_valid m row

/-- Modelled from the spec (section 4.1): `and_masks(mask_a, offset_a,
mask_b, offset_b, row_count)` produces a new owned bitmask whose bit `i`
(for `i < row_count`) is valid iff both inputs are valid at their own
offset + `i`; a missing input mask is treated as all-valid.  The offsets are
carried inside each `Bitmask`; the new mask starts at bit offset 0. -/
def and_masks (a b : Option Bitmask) (row_count : Nat) : Bitmask :=
  ⟨(List.range row_count).map (fun i => valid_at a i && valid_at b i), 0⟩

/-- Whether an optional bitmask has at least one invalid row among the
`row_count` logical rows of its owning view (spec section 4.2 step 1).
A missing mask has no invalid rows. -/
def has_invalid (v : Option Bitmask) (row_count : Nat) : Bool :=
  (List.range row_count).any (fun i => ! valid_at v i)

mutual

/-- Modelled from the spec (section 3, "Column View"): {type_id, size,
optional validity bitmask, data buffer (opaque leaf payload), base_offset,
ordered children}.  `ColumnList` is the ordered sequence of children. -/
inductive ColumnView where
  | mk : ColType → Nat → Option Bitmask → List Nat → Nat → ColumnList → ColumnView
  deriving DecidableEq, Repr

/-- Ordered sequence of child column views of a nested column. -/
inductive ColumnList where
  | nil : ColumnList
  | cons : ColumnView → ColumnList → ColumnList
  deriving DecidableEq, Repr

end

def ColumnView.ty : ColumnView → ColType
  | .mk t _ _ _ _ _ => t

def ColumnView.size : ColumnView → Nat
  | .mk _ sz _ _ _ _ => sz

def ColumnView.validity : ColumnView → Option Bitmask
  | .mk _ _ v _ _ _ => v

def ColumnView.data : ColumnView → List Nat
  | .mk _ _ _ d _ _ => d

def ColumnView.base_offset : ColumnView → Nat
  | .mk _ _ _ _ off _ => off

def ColumnView.children : ColumnView → ColumnList
  | .mk _ _ _ _ _ cs => cs

mutual

/-- Modelled from the spec (section 4.2): `superimpose_parent_nulls(view) ->
(derived_view, owned_backing_buffers)`.  A non-STRUCT view is returned
unchanged with an empty buffer set.  A STRUCT view has each child's validity
replaced by `and_masks(parent.validity, child.validity, parent.size)` when
the parent has at least one invalid row, recursing into STRUCT children with
the combined mask; when the parent has no invalid row the child is passed
through unmodified but STRUCT children are still recursed into. -/
def superimpose_parent_nulls : ColumnView → ColumnView × List Bitmask
  | .mk ty sz v d off cs =>
    if ty = .struct then
      let r := superimpose_children v sz cs
      (.mk ty sz v d off r.1, r.2)
    else
      (.mk ty sz v d off cs, [])

/-- Spec section 4.2 step 2, applied to each child in declared order.
`v` and `sz` are the parent STRUCT's validity and size.  Recursing into a
STRUCT child view is unfolded in place: the child's own children are
processed under the child's (possibly combined) mask and size. -/
def superimpose_children (v : Option Bitmask) (sz : Nat) :
    ColumnList → ColumnList × List Bitmask
  | .nil => (.nil, [])
  | .cons (.mk cty csz cv cd coff ccs) cs =>
    let rest := superimpose_children v sz cs
    if has_invalid v sz then
      let m := and_masks v cv sz
      if cty = .struct then
        let rc := superimpose_children (some m) csz ccs
        (.cons (.mk cty csz (some m) cd coff rc.1) rest.1, m :: (rc.2 ++ rest.2))
      else
        (.cons (.mk cty csz (some m) cd coff ccs) rest.1, m :: rest.2)
    else
      if cty = .struct then
        let rc := superimpose_children cv csz ccs
        (.cons (.mk cty csz cv cd coff rc.1) rest.1, rc.2 ++ rest.2)
      else
        (.cons (.mk cty csz cv cd coff ccs) rest.1, rest.2)

end

/-- Induction principle for the mutual view/list family: to prove `P` of
every view and `Q` of every child list, it suffices to handle the
constructors, with the hypothesis for a view given access to its children. -/
theorem ColumnView.ind_pair (P : ColumnView → Prop) (Q : ColumnList → Prop)
    (hmk : ∀ ty sz v d off cs, Q cs → P (.mk ty sz v d off cs))
    (hnil : Q .nil)
    (hcons : ∀ c cs, P c → Q cs → Q (.cons c cs)) :
    (∀ c, P c) ∧ (∀ cs, Q cs) :=
  ⟨fun c => @ColumnView.rec P Q hmk hnil hcons c,
   fun cs => @ColumnList.rec P Q hmk hnil hcons cs⟩

/-- Shift a bitmask reference forward by `a` rows (zero-copy slicing of the
validity buffer: only the bit offset moves). -/
def shift_mask (v : Option Bitmask) (a : Nat) : Option Bitmask :=
  match v with
  | none => none
  | some m => some ⟨m.buf, m.off + a⟩

mutual

/-- Modelled from the spec (section 3): zero-copy slicing of a column view to
the row sub-range `[a, b)`: the row count becomes `b - a`, the base offset
and the validity bit offset advance by `a`, and the children of a STRUCT
(which share the parent's row alignment) are sliced likewise.  A LIST child
keeps its own, independent row range. -/
def slice_view : ColumnView → Nat → Nat → ColumnView
  | .mk ty _ v d off cs, a, b =>
    .mk ty (b - a) (shift_mask v a) d (off + a)
      (if ty = .struct then slice_children cs a b else cs)

def slice_children : ColumnList → Nat → Nat → ColumnList
  | .nil, _, _ => .nil
  | .cons c cs, a, b => .cons (slice_view c a b) (slice_children cs a b)

end

/-- The `n`-th child of a child list (a placeholder empty view out of range). -/
def ColumnList.nth : ColumnList → Nat → ColumnView
  | .nil, _ => .mk .fixed_width 0 none [] 0 .nil
  | .cons c _, 0 => c
  | .cons _ cs, n + 1 => cs.nth n

/-- The `n`-th child of a column view. -/
def child (c : ColumnView) (n : Nat) : ColumnView :=
  c.children.nth n

/-- Reading bit `i < n` of a freshly built `and_masks` result gives the
conjunction of the two input masks' validity at logical row `i`. -/
theorem and_masks_getD (a b : Option Bitmask) (n i : Nat) (hi : i < n) :
    bit_is_valid (and_masks a b n) i = (valid_at a i && valid_at b i) := by
  show ((List.range n).map (fun j => valid_at a j && valid_at b j)).getD (0 + i) true = _
  rw [Nat.zero_add]
  rw [List.getD_eq_getElem _ _ (by simpa using hi)]
  simp

/-- ANDing a parent mask onto an already-ANDed (parent ∧ child) mask changes
nothing: the AND absorbs. -/
theorem and_masks_absorb (v cv : Option Bitmask) (sz : Nat) :
    and_masks v (some (and_masks v cv sz)) sz = and_masks v cv sz := by
  have hl : (List.range sz).map (fun i => valid_at v i && valid_at (some (and_masks v cv sz)) i)
      = (List.range sz).map (fun i => valid_at v i && valid_at cv i) := by
    apply List.map_congr_left
    intro i hi
    rw [List.mem_range] at hi
    rw [show valid_at (some (and_masks v cv sz)) i = (valid_at v i && valid_at cv i) from
      and_masks_getD v cv sz i hi]
    cases valid_at v i <;> simp
  show Bitmask.mk ((List.range sz).map fun i => valid_at v i && valid_at (some (and_masks v cv sz)) i) 0
      = Bitmask.mk ((List.range sz).map fun i => valid_at v i && valid_at cv i) 0
  rw [hl]

/-- Superimposing the children of a struct a second time, under the same
parent mask, reproduces the first result exactly. -/
theorem superimpose_children_idem :
    ∀ cs v sz, (superimpose_children v sz (superimpose_children v sz cs).1).1 =
      (superimpose_children v sz cs).1 := by
  have h := ColumnView.ind_pair
    (fun c => ∀ v sz, (superimpose_children v sz (superimpose_children v sz c.children).1).1 =
      (superimpose_children v sz c.children).1)
    (fun cs => ∀ v sz, (superimpose_children v sz (superimpose_children v sz cs).1).1 =
      (superimpose_children v sz cs).1)
    (fun _ _ _ _ _ cs ih => ih)
    (by intro v sz; simp [superimpose_children])
    ?_
  · exact h.2
  intro c cs ihc ihcs
  intro v sz
  cases c with
  | mk cty csz cv cd coff ccs =>
    by_cases hinv : has_invalid v sz = true
    · by_cases hty : cty = ColType.struct
      · simp only [superimpose_children, hinv, hty, if_pos, if_true]
        simp only [and_masks_absorb]
        have ih1 := ihc (some (and_masks v cv sz)) csz
        simp only [ColumnView.children] at ih1
        rw [ih1, ihcs]
      · simp only [superimpose_children, hinv, hty, if_true, if_false]
        simp only [and_masks_absorb]
        rw [ihcs]
    · simp only [Bool.not_eq_true] at hinv
      by_cases hty : cty = ColType.struct
      · simp only [superimpose_children, hinv, hty, if_pos, Bool.false_eq_true, if_false]
        have ih1 := ihc cv csz
        simp only [ColumnView.children] at ih1
        rw [ih1, ihcs]
      · simp only [superimpose_children, hinv, hty, Bool.false_eq_true, if_false]
        rw [ihcs]

/-- C6: applying `superimpose_parent_nulls` to the view component of its own
output returns that component unchanged: superimposition is idempotent on
struct-typed views. -/
theorem C6_superimpose_idempotent (x : ColumnView) (hx : x.ty = .struct) :
    (superimpose_parent_nulls (superimpose_parent_nulls x).1).1 =
      (superimpose_parent_nulls x).1 := by
  cases x with
  | mk ty sz v d off cs =>
    simp only [ColumnView.ty] at hx
    subst hx
    simp only [superimpose_parent_nulls, if_pos]
    simp only [superimpose_children_idem]

/-- C7: `superimpose_parent_nulls` on any non-STRUCT column view (fixed-width,
string, dictionary or list) is the identity, returning the very same view and
an empty backing-buffer set. -/
theorem C7_identity_on_non_struct (x : ColumnView) (hx : x.ty ≠ .struct) :
    superimpose_parent_nulls x = (x, []) := by
  cases x with
  | mk ty sz v d off cs =>
    simp only [ColumnView.ty] at hx
    simp [superimpose_parent_nulls, hx]

/-- C7 witness: the 5-row strings column of test `NoStructInput` (null at
row 3) is non-STRUCT and is returned unchanged with no backing buffers. -/
theorem C7_identity_on_non_struct_witness :
    (ColumnView.mk .string 5 (some ⟨[true, true, true, false, true], 0⟩)
        [0, 1, 2, 3, 4] 0 .nil).ty ≠ ColType.struct ∧
    superimpose_parent_nulls
        (ColumnView.mk .string 5 (some ⟨[true, true, true, false, true], 0⟩)
          [0, 1, 2, 3, 4] 0 .nil) =
      (ColumnView.mk .string 5 (some ⟨[true, true, true, false, true], 0⟩)
        [0, 1, 2, 3, 4] 0 .nil, []) :=
  ⟨by decide,
   C7_identity_on_non_struct
     (ColumnView.mk .string 5 (some ⟨[true, true, true, false, true], 0⟩)
       [0, 1, 2, 3, 4] 0 .nil) (by decide)⟩

/-- C6 witness: idempotence at the concrete struct column of test
`BasicStruct` (numeric member invalid at {3,6}, list member invalid at {4,5},
struct row 0 invalid). -/
theorem C6_superimpose_idempotent_witness :
    (ColumnView.mk .struct 7 (some ⟨[false, true, true, true, true, true, true], 0⟩) [] 0
        (.cons (.mk .fixed_width 7 (some ⟨[true, true, true, false, true, true, false], 0⟩)
            [10, 11, 12, 13, 14, 15, 16] 0 .nil)
          (.cons (.mk .list 7 (some ⟨[true, true, true, true, false, false, true], 0⟩)
              [20, 21, 22, 23, 24, 25, 26] 0 .nil) .nil))).ty = ColType.struct ∧
    (superimpose_parent_nulls (superimpose_parent_nulls
        (ColumnView.mk .struct 7 (some ⟨[false, true, true, true, true, true, true], 0⟩) [] 0
          (.cons (.mk .fixed_width 7 (some ⟨[true, true, true, false, true, true, false], 0⟩)
              [10, 11, 12, 13, 14, 15, 16] 0 .nil)
            (.cons (.mk .list 7 (some ⟨[true, true, true, true, false, false, true], 0⟩)
                [20, 21, 22, 23, 24, 25, 26] 0 .nil) .nil)))).1).1 =
      (superimpose_parent_nulls
        (ColumnView.mk .struct 7 (some ⟨[false, true, true, true, true, true, true], 0⟩) [] 0
          (.cons (.mk .fixed_width 7 (some ⟨[true, true, true, false, true, true, false], 0⟩)
              [10, 11, 12, 13, 14, 15, 16] 0 .nil)
            (.cons (.mk .list 7 (some ⟨[true, true, true, true, false, false, true], 0⟩)
                [20, 21, 22, 23, 24, 25, 26] 0 .nil) .nil)))).1 :=
  ⟨by decide,
   C6_superimpose_idempotent
     (ColumnView.mk .struct 7 (some ⟨[false, true, true, true, true, true, true], 0⟩) [] 0
       (.cons (.mk .fixed_width 7 (some ⟨[true, true, true, false, true, true, false], 0⟩)
           [10, 11, 12, 13, 14, 15, 16] 0 .nil)
         (.cons (.mk .list 7 (some ⟨[true, true, true, true, false, false, true], 0⟩)
             [20, 21, 22, 23, 24, 25, 26] 0 .nil) .nil))) (by decide)⟩

/-- The 7-row numeric member of the superimpose tests: values 10..16,
invalid at rows 3 and 6 (test helper `make_nums_member`). -/
def nums_member : ColumnView :=
  .mk .fixed_width 7 (some ⟨[true, true, true, false, true, true, false], 0⟩)
    [10, 11, 12, 13, 14, 15, 16] 0 .nil

/-- The 7-row list member of the superimpose tests: invalid at rows 4 and 5
(test helper `make_lists_member`); its element payload is opaque here. -/
def lists_member : ColumnView :=
  .mk .list 7 (some ⟨[true, true, true, true, false, false, true], 0⟩)
    [20, 21, 22, 23, 24, 25, 26] 0 .nil

/-- Test `BasicStruct`'s input: a 7-row struct of {numeric, list} whose own
null mask was reset to all-valid and then row 0 marked invalid. -/
def basic_struct_input : ColumnView :=
  .mk .struct 7 (some ⟨[false, true, true, true, true, true, true], 0⟩) [] 0
    (.cons nums_member (.cons lists_member .nil))

/-- C3: superimposing test `BasicStruct`'s struct (numeric member invalid at
{3,6}, list member invalid at {4,5}, struct row 0 invalid) makes the numeric
member invalid exactly at {0,3,6}, the list member invalid exactly at
{0,4,5}, and leaves the struct column itself invalid exactly at {0}
(row-0-first validity patterns over the 7 rows). -/
theorem C3_basic_struct_pushdown :
    ((List.range 7).map
        (fun i => valid_at (child (superimpose_parent_nulls basic_struct_input).1 0).validity i)
      = [false, true, true, false, true, true, false]) ∧
    ((List.range 7).map
        (fun i => valid_at (child (superimpose_parent_nulls basic_struct_input).1 1).validity i)
      = [false, true, true, true, false, false, true]) ∧
    ((List.range 7).map
        (fun i => valid_at (superimpose_parent_nulls basic_struct_input).1.validity i)
      = [false, true, true, true, true, true, true]) := by
  decide

/-- The struct null-mask pattern of test `Struct_Sliced` before slicing:
rows 0..6 valid except row 1 (written `1111101` row-6-first in the test). -/
def sliced_struct_pattern : List Bool :=
  [true, false, true, true, true, true, true]

/-- The numeric member pattern of test `Struct_Sliced`: invalid at rows 3
and 6 (written `0110111` row-6-first in the test). -/
def sliced_nums_pattern : List Bool :=
  [true, true, true, false, true, true, false]

/-- Test `Struct_Sliced`'s unsliced input struct column. -/
def sliced_test_base : ColumnView :=
  .mk .struct 7 (some ⟨sliced_struct_pattern, 0⟩) [] 0
    (.cons (.mk .fixed_width 7 (some ⟨sliced_nums_pattern, 0⟩)
        [10, 11, 12, 13, 14, 15, 16] 0 .nil)
      (.cons lists_member .nil))

/-- C4: slicing the 7-row struct (validity `1111101`, numeric member
`0110111`) to rows [1,6) and superimposing yields, for the numeric member,
exactly the bitwise AND of the two patterns restricted to rows [1,6) —
aligned at the same logical row through the shifted bit offsets, not
recomputed from bit position 0 of the unsliced buffers. -/
theorem C4_sliced_alignment :
    (List.range 5).map
        (fun i =>
          valid_at (child (superimpose_parent_nulls
            (slice_view sliced_test_base 1 6)).1 0).validity i)
      = (List.range 5).map
        (fun i => sliced_struct_pattern.getD (1 + i) true &&
          sliced_nums_pattern.getD (1 + i) true) := by
  decide

/-- The struct-of-struct configuration exactly as claim C5 words it: the
inner struct has row 1 invalid, the outer struct independently has row 1
invalid, and the numeric leaf is initially invalid at {3,6}. -/
def c5_claim_input : ColumnView :=
  .mk .struct 7 (some ⟨[true, false, true, true, true, true, true], 0⟩) [] 0
    (.cons
      (.mk .struct 7 (some ⟨[true, false, true, true, true, true, true], 0⟩) [] 0
        (.cons nums_member .nil))
      .nil)

/-- C5 counterexample: with inner invalid = {1} and outer invalid = {1} (as
the claim states), the numeric leaf after superimposition is invalid exactly
at {1,3,6} — row 0 remains valid — not at the claimed {0,1,3,6}. -/
theorem C5_counterexample :
    ((List.range 7).map
        (fun i =>
          valid_at (child (child (superimpose_parent_nulls c5_claim_input).1 0) 0).validity i)
      = [true, false, true, false, true, true, false]) ∧
    valid_at (child (child (superimpose_parent_nulls c5_claim_input).1 0) 0).validity 0
      = true := by
  decide

/-- The struct-of-struct of test `NestedStruct_ChildNullable_ParentNullable`:
the inner struct has row 0 marked invalid, the outer struct independently has
row 1 marked invalid, and the numeric leaf is initially invalid at {3,6}. -/
def c5_test_input : ColumnView :=
  .mk .struct 7 (some ⟨[true, false, true, true, true, true, true], 0⟩) [] 0
    (.cons
      (.mk .struct 7 (some ⟨[false, true, true, true, true, true, true], 0⟩) [] 0
        (.cons nums_member (.cons lists_member .nil)))
      .nil)

/-- C5 amended: with the inner struct invalid at row 0 and the outer struct
invalid at row 1 (the configuration the test actually builds), the numeric
leaf after superimposition is invalid exactly at the union of ancestor and
own invalidity, {0,1,3,6}. -/
theorem C5_amended_nested_pushdown :
    (List.range 7).map
        (fun i =>
          valid_at (child (child (superimpose_parent_nulls c5_test_input).1 0) 0).validity i)
      = [false, false, true, false, true, true, false] := by
  decide

/-- The child handling claim C8 describes for a parent with no invalid rows:
every child is passed through with its own validity unmodified, but a child
that is itself a STRUCT is still superimposed (pushing its own nulls into its
grandchildren). -/
def passthrough_children : ColumnList → ColumnList
  | .nil => .nil
  | .cons c cs =>
    .cons (if c.ty = .struct then (superimpose_parent_nulls c).1 else c)
      (passthrough_children cs)

/-- When the parent mask has no invalid row, superimposing the children is
exactly the pass-through-with-recursion of `passthrough_children`. -/
theorem superimpose_children_no_invalid :
    ∀ cs v sz, has_invalid v sz = false →
      (superimpose_children v sz cs).1 = passthrough_children cs := by
  have h := ColumnView.ind_pair (fun _ => True)
    (fun cs => ∀ v sz, has_invalid v sz = false →
      (superimpose_children v sz cs).1 = passthrough_children cs)
    (fun _ _ _ _ _ _ _ => trivial)
    (by intro v sz _; simp [superimpose_children, passthrough_children])
    ?_
  · exact h.2
  intro c cs _ ihcs v sz hinv
  cases c with
  | mk cty csz cv cd coff ccs =>
    by_cases hty : cty = ColType.struct
    · subst hty
      simp only [superimpose_children, hinv, Bool.false_eq_true, if_false, if_pos]
      rw [ihcs v sz hinv]
      simp [passthrough_children, superimpose_parent_nulls, ColumnView.ty]
    · simp only [superimpose_children, hinv, Bool.false_eq_true, if_false, hty]
      rw [ihcs v sz hinv]
      simp [passthrough_children, ColumnView.ty, hty]

/-- C8: for a struct whose validity is absent or carries no invalid row in
its logical range, `superimpose_parent_nulls` passes every child through with
its own validity unmodified, while still recursing into children that are
themselves structs, so a descendant struct's own nulls are pushed into its
grandchildren even when no ancestor contributes a null. -/
theorem C8_no_parent_nulls_passthrough (sz : Nat) (v : Option Bitmask)
    (d : List Nat) (off : Nat) (cs : ColumnList)
    (hinv : has_invalid v sz = false) :
    (superimpose_parent_nulls (.mk .struct sz v d off cs)).1 =
      .mk .struct sz v d off (passthrough_children cs) := by
  simp only [superimpose_parent_nulls, if_pos]
  rw [superimpose_children_no_invalid cs v sz hinv]

mutual

/-- The logical content of one row of a column: null, an opaque leaf payload,
or a struct row made of the member rows.  A row whose own (or, after
superimposition, ancestor-combined) validity bit is unset denotes `null`,
and its nested payload is irrelevant. -/
inductive CellValue where
  | null : CellValue
  | leafV : Nat → CellValue
  | structV : CellList → CellValue
  deriving DecidableEq, Repr

/-- The member rows of one struct row. -/
inductive CellList where
  | nil : CellList
  | cons : CellValue → CellList → CellList
  deriving DecidableEq, Repr

end

mutual

/-- Row-wise logical content of a column view: row `i` is null when the
validity bit says so, a struct row collects its members' row `i`, and any
other column reads its (opaque) payload at `base_offset + i`.  LIST columns
are opaque leaves here, matching their treatment by the superimposer. -/
def denote_view : ColumnView → Nat → CellValue
  | .mk ty _ v d off cs, i =>
    if valid_at v i = false then .null
    else if ty = .struct then .structV (denote_children cs i)
    else .leafV (d.getD (off + i) 0)

def denote_children : ColumnList → Nat → CellList
  | .nil, _ => .nil
  | .cons c cs, i => .cons (denote_view c i) (denote_children cs i)

end

/-- Every view in the list has row count `sz`. -/
def sizes_eq : ColumnList → Nat → Bool
  | .nil, _ => true
  | .cons c cs, sz => (c.size == sz) && sizes_eq cs sz

mutual

/-- The data-model invariant (spec section 3): all children of a STRUCT
column share the parent's row count, recursively. -/
def wf_view : ColumnView → Bool
  | .mk ty sz _ _ _ cs =>
    (if ty = .struct then sizes_eq cs sz else true) && wf_children cs

def wf_children : ColumnList → Bool
  | .nil => true
  | .cons c cs => wf_view c && wf_children cs

end

theorem ty_slice_view (c : ColumnView) (a b : Nat) :
    (slice_view c a b).ty = c.ty := by
  cases c; rfl

theorem size_slice_view' (c : ColumnView) (a b : Nat) :
    (slice_view c a b).size = b - a := by
  cases c; rfl

/-- Superimposition only replaces children; type, size, validity, data and
base offset of the view itself are untouched. -/
theorem superimpose_view_shape (ty : ColType) (sz : Nat) (v : Option Bitmask)
    (d : List Nat) (off : Nat) (cs : ColumnList) :
    ∃ cs', (superimpose_parent_nulls (.mk ty sz v d off cs)).1 = .mk ty sz v d off cs' := by
  by_cases h : ty = ColType.struct
  · exact ⟨(superimpose_children v sz cs).1, by simp [superimpose_parent_nulls, h]⟩
  · exact ⟨cs, by simp [superimpose_parent_nulls, h]⟩

theorem valid_at_shift_mask (v : Option Bitmask) (a i : Nat) :
    valid_at (shift_mask v a) i = valid_at v (a + i) := by
  cases v with
  | none => rfl
  | some m =>
    show bit_is_valid ⟨m.buf, m.off + a⟩ i = bit_is_valid m (a + i)
    unfold bit_is_valid
    simp only
    rw [Nat.add_assoc]

/-- Slicing shifts the denotation: logical row `i` of the slice `[a, b)` is
logical row `a + i` of the unsliced column. -/
theorem denote_slice :
    (∀ c a b i, denote_view (slice_view c a b) i = denote_view c (a + i)) ∧
    (∀ cs a b i, denote_children (slice_children cs a b) i = denote_children cs (a + i)) := by
  have h := ColumnView.ind_pair
    (fun c => ∀ a b i, denote_view (slice_view c a b) i = denote_view c (a + i))
    (fun cs => ∀ a b i, denote_children (slice_children cs a b) i = denote_children cs (a + i))
    ?_ ?_ ?_
  · exact h
  · intro ty sz v d off cs ih a b i
    by_cases hty : ty = ColType.struct
    · subst hty
      simp [slice_view, denote_view, valid_at_shift_mask]
      rw [ih a b i]
    · have harith : off + a + i = off + (a + i) := by omega
      simp [slice_view, denote_view, hty, valid_at_shift_mask, harith]
  · intro a b i; rfl
  · intro c cs ihc ihcs a b i
    simp only [slice_children, denote_children]
    rw [ihc a b i, ihcs a b i]

/-- Slicing preserves the data-model invariant. -/
theorem wf_slice :
    (∀ c a b, wf_view c = true → wf_view (slice_view c a b) = true) ∧
    (∀ cs a b, wf_children cs = true → wf_children (slice_children cs a b) = true ∧
      sizes_eq (slice_children cs a b) (b - a) = true) := by
  have h := ColumnView.ind_pair
    (fun c => ∀ a b, wf_view c = true → wf_view (slice_view c a b) = true)
    (fun cs => ∀ a b, wf_children cs = true → wf_children (slice_children cs a b) = true ∧
      sizes_eq (slice_children cs a b) (b - a) = true)
    ?_ ?_ ?_
  · exact h
  · intro ty sz v d off cs ih a b hwf
    simp only [wf_view, Bool.and_eq_true] at hwf
    by_cases hty : ty = ColType.struct
    · subst hty
      have hch := ih a b hwf.2
      simp [slice_view, wf_view, hch.1, hch.2]
    · simp [slice_view, wf_view, hty, hwf.2]
  · intro a b _; exact ⟨rfl, rfl⟩
  · intro c cs ihc ihcs a b hwf
    simp only [wf_children, Bool.and_eq_true] at hwf
    have h1 := ihc a b hwf.1
    have h2 := ihcs a b hwf.2
    constructor
    · simp [slice_children, wf_children, h1, h2.1]
    · have hsz : (slice_view c a b).size = b - a := size_slice_view' c a b
      simp [slice_children, sizes_eq, hsz, h2.2]

/-- Superimposition never changes the logical row content of a well-formed
column: a child row was already null wherever an ancestor was null at the
level of the denotation, since a null ancestor hides the child entirely. -/
theorem superimpose_denote :
    (∀ c, wf_view c = true → ∀ i < c.size,
      denote_view (superimpose_parent_nulls c).1 i = denote_view c i) ∧
    (∀ cs v sz, sizes_eq cs sz = true → wf_children cs = true →
      ∀ i < sz, valid_at v i = true →
        denote_children (superimpose_children v sz cs).1 i = denote_children cs i) := by
  have h := ColumnView.ind_pair
    (fun c => ∀ v sz, sizes_eq c.children sz = true → wf_children c.children = true →
      ∀ i < sz, valid_at v i = true →
        denote_children (superimpose_children v sz c.children).1 i = denote_children c.children i)
    (fun cs => ∀ v sz, sizes_eq cs sz = true → wf_children cs = true →
      ∀ i < sz, valid_at v i = true →
        denote_children (superimpose_children v sz cs).1 i = denote_children cs i)
    (fun _ _ _ _ _ _ ih => ih) (by intro v sz _ _ i _ _; rfl) ?_
  · constructor
    · intro c hwf i hi
      cases c with
      | mk ty sz v d off cs =>
        by_cases hty : ty = ColType.struct
        · subst hty
          simp only [superimpose_parent_nulls, if_pos]
          simp only [wf_view, Bool.and_eq_true] at hwf
          have hwf1 : sizes_eq cs sz = true := by simpa using hwf.1
          cases hv : valid_at v i with
          | false => simp [denote_view, hv]
          | true =>
            have hrec := h.2 cs v sz hwf1 hwf.2 i hi hv
            simp [denote_view, hv, hrec]
        · simp [superimpose_parent_nulls, hty]
    · exact h.2
  intro c cs ihc ihcs v sz hsz hwf i hi hv
  cases c with
  | mk cty csz cv cd coff ccs =>
    simp only [ColumnView.children] at ihc
    simp only [sizes_eq, Bool.and_eq_true, beq_iff_eq, ColumnView.size] at hsz
    simp only [wf_children, Bool.and_eq_true] at hwf
    have icsz : i < csz := hsz.1 ▸ hi
    have htail := ihcs v sz hsz.2 hwf.2 i hi hv
    by_cases hinv : has_invalid v sz = true
    · have hmask : valid_at (some (and_masks v cv sz)) i = valid_at cv i := by
        show bit_is_valid (and_masks v cv sz) i = valid_at cv i
        rw [and_masks_getD v cv sz i hi, hv, Bool.true_and]
      by_cases hty : cty = ColType.struct
      · subst hty
        have hwfc : sizes_eq ccs csz = true ∧ wf_children ccs = true := by
          have hh := hwf.1
          simp only [wf_view, Bool.and_eq_true] at hh
          exact ⟨by simpa using hh.1, hh.2⟩
        cases hcv : valid_at cv i with
        | false =>
          simp [superimpose_children, hinv, denote_children, denote_view, hmask, hcv, htail]
        | true =>
          have hrec := ihc (some (and_masks v cv sz)) csz hwfc.1 hwfc.2 i icsz
            (hmask.trans hcv)
          simp [superimpose_children, hinv, denote_children, denote_view, hmask, hcv, htail,
            hrec]
      · simp [superimpose_children, hinv, hty, denote_children, denote_view, hmask, htail]
    · simp only [Bool.not_eq_true] at hinv
      by_cases hty : cty = ColType.struct
      · subst hty
        have hwfc : sizes_eq ccs csz = true ∧ wf_children ccs = true := by
          have hh := hwf.1
          simp only [wf_view, Bool.and_eq_true] at hh
          exact ⟨by simpa using hh.1, hh.2⟩
        cases hcv : valid_at cv i with
        | false =>
          simp [superimpose_children, hinv, denote_children, denote_view, hcv, htail]
        | true =>
          have hrec := ihc cv csz hwfc.1 hwfc.2 i icsz hcv
          simp [superimpose_children, hinv, denote_children, denote_view, hcv, htail, hrec]
      · simp [superimpose_children, hinv, hty, denote_children, denote_view, htail]

/-- C10: superimposition commutes with slicing: superimposing the slice
`[a, b)` of a well-formed struct column is row-wise logically equivalent
(same type, same row count, same per-row content) to slicing the
superimposed whole to `[a, b)`. -/
theorem C10_superimpose_commutes_with_slice (c : ColumnView) (a b : Nat)
    (hwf : wf_view c = true) (hty : c.ty = ColType.struct) (hb : b ≤ c.size) :
    (superimpose_parent_nulls (slice_view c a b)).1.ty =
      (slice_view (superimpose_parent_nulls c).1 a b).ty ∧
    (superimpose_parent_nulls (slice_view c a b)).1.size =
      (slice_view (superimpose_parent_nulls c).1 a b).size ∧
    ∀ i < b - a,
      denote_view (superimpose_parent_nulls (slice_view c a b)).1 i =
        denote_view (slice_view (superimpose_parent_nulls c).1 a b) i := by
  cases c with
  | mk ty sz v d off cs =>
    obtain ⟨cs', hcs'⟩ := superimpose_view_shape ty sz v d off cs
    obtain ⟨cs'', hcs''⟩ := superimpose_view_shape ty (b - a) (shift_mask v a) d (off + a)
      (if ty = ColType.struct then slice_children cs a b else cs)
    refine ⟨?_, ?_, ?_⟩
    · show (superimpose_parent_nulls (.mk ty (b - a) (shift_mask v a) d (off + a) _)).1.ty = _
      rw [hcs'', hcs', ty_slice_view]
      rfl
    · show (superimpose_parent_nulls (.mk ty (b - a) (shift_mask v a) d (off + a) _)).1.size = _
      rw [hcs'', hcs', size_slice_view']
      rfl
    · intro i hi
      have h1 : denote_view (superimpose_parent_nulls (slice_view (.mk ty sz v d off cs) a b)).1 i
          = denote_view (slice_view (.mk ty sz v d off cs) a b) i := by
        apply superimpose_denote.1
        · exact wf_slice.1 _ a b hwf
        · rw [size_slice_view']; exact hi
      have h2 : denote_view (slice_view (.mk ty sz v d off cs) a b) i
          = denote_view (.mk ty sz v d off cs) (a + i) := denote_slice.1 _ a b i
      have h3 : denote_view (slice_view (superimpose_parent_nulls (.mk ty sz v d off cs)).1 a b) i
          = denote_view (superimpose_parent_nulls (.mk ty sz v d off cs)).1 (a + i) :=
        denote_slice.1 _ a b i
      have h4 : denote_view (superimpose_parent_nulls (.mk ty sz v d off cs)).1 (a + i)
          = denote_view (.mk ty sz v d off cs) (a + i) := by
        apply superimpose_denote.1 _ hwf
        show a + i < (ColumnView.mk ty sz v d off cs).size
        have : a + i < b := by omega
        exact Nat.lt_of_lt_of_le this hb
      rw [h1, h2, h3, h4]

/-- C10 witness: commutation at the concrete sliced-struct scenario of test
`Struct_Sliced` (struct validity `1111101`, numeric member `0110111`),
sliced to rows [1,6). -/
theorem C10_superimpose_commutes_with_slice_witness :
    wf_view sliced_test_base = true ∧ sliced_test_base.ty = ColType.struct ∧
    6 ≤ sliced_test_base.size ∧
    ((superimpose_parent_nulls (slice_view sliced_test_base 1 6)).1.ty =
      (slice_view (superimpose_parent_nulls sliced_test_base).1 1 6).ty ∧
    (superimpose_parent_nulls (slice_view sliced_test_base 1 6)).1.size =
      (slice_view (superimpose_parent_nulls sliced_test_base).1 1 6).size ∧
    ∀ i < 6 - 1,
      denote_view (superimpose_parent_nulls (slice_view sliced_test_base 1 6)).1 i =
        denote_view (slice_view (superimpose_parent_nulls sliced_test_base).1 1 6) i) :=
  ⟨by decide, by decide, by decide,
   C10_superimpose_commutes_with_slice sliced_test_base 1 6 (by decide) (by decide) (by decide)⟩

/-- C8 witness: test `NestedStruct_ChildNullable_ParentNonNullable`'s outer
struct (no validity mask) around an inner struct with row 0 invalid: the
inner struct is recursed into, which pushes its null at row 0 into the
numeric grandchild (invalid {3,6} becoming {0,3,6}). -/
theorem C8_no_parent_nulls_passthrough_witness :
    has_invalid none 7 = false ∧
    (superimpose_parent_nulls
        (.mk .struct 7 none [] 0
          (.cons (.mk .struct 7 (some ⟨[false, true, true, true, true, true, true], 0⟩) [] 0
              (.cons nums_member (.cons lists_member .nil))) .nil))).1 =
      .mk .struct 7 none [] 0
        (passthrough_children
          (.cons (.mk .struct 7 (some ⟨[false, true, true, true, true, true, true], 0⟩) [] 0
              (.cons nums_member (.cons lists_member .nil))) .nil)) :=
  ⟨by decide,
   C8_no_parent_nulls_passthrough 7 none [] 0
     (.cons (.mk .struct 7 (some ⟨[false, true, true, true, true, true, true], 0⟩) [] 0
       (.cons nums_member (.cons lists_member .nil))) .nil) (by decide)⟩

mutual

/-- Number of column views in a hierarchy: the termination measure for the
flatten transform (superimposition rebuilds masks but never changes the
number of views). -/
def nodes_view : ColumnView → Nat
  | .mk _ _ _ _ _ cs => 1 + nodes_children cs

def nodes_children : ColumnList → Nat
  | .nil => 0
  | .cons c cs => 1 + nodes_view c + nodes_children cs

end

/-- Superimposition preserves the number of views in the hierarchy. -/
theorem nodes_superimpose :
    ∀ cs v sz, nodes_children (superimpose_children v sz cs).1 = nodes_children cs := by
  have h := ColumnView.ind_pair
    (fun c => ∀ v sz, nodes_children (superimpose_children v sz c.children).1 =
      nodes_children c.children)
    (fun cs => ∀ v sz, nodes_children (superimpose_children v sz cs).1 = nodes_children cs)
    (fun _ _ _ _ _ _ ih => ih) (by intro v sz; rfl) ?_
  · exact h.2
  intro c cs ihc ihcs v sz
  cases c with
  | mk cty csz cv cd coff ccs =>
    simp only [ColumnView.children] at ihc
    by_cases hinv : has_invalid v sz = true
    · by_cases hty : cty = ColType.struct
      · simp [superimpose_children, hinv, hty, nodes_children, nodes_view, ihc, ihcs]
      · simp [superimpose_children, hinv, hty, nodes_children, nodes_view, ihcs]
    · simp only [Bool.not_eq_true] at hinv
      by_cases hty : cty = ColType.struct
      · simp [superimpose_children, hinv, hty, nodes_children, nodes_view, ihc, ihcs]
      · simp [superimpose_children, hinv, hty, nodes_children, nodes_view, ihcs]

/-- Modelled from the spec (section 6): the nullability policy of the
flatten transform. -/
inductive column_nullability where
  | EQUIVALENT
  | FORCE
  deriving DecidableEq, Repr

/-- Modelled from the spec (section 7): the error taxonomy of the
flatten/unflatten transform. -/
inductive FlattenError where
  | StructuralUnsupported
  | TypeMismatch
  | InvalidArgument
  deriving DecidableEq, Repr

mutual

/-- Modelled from the spec (section 4.3): flattening one column.  A LIST
column anywhere fails the whole call with `StructuralUnsupported`; a STRUCT
column is first superimposed and its (now null-superimposed) children are
then flattened recursively in member order; any other column is emitted
unchanged, except that the FORCE policy rewraps a mask-less leaf with an
explicit all-valid mask. -/
def flatten_column (policy : column_nullability) : ColumnView → Except FlattenError (List ColumnView)
  | .mk ty sz v d off cs =>
    if ty = ColType.list then .error .StructuralUnsupported
    else if ty = ColType.struct then
      flatten_children policy (superimpose_children v sz cs).1
    else
      match policy, v with
      | .FORCE, none => .ok [.mk ty sz (some ⟨List.replicate sz true, 0⟩) d off cs]
      | _, _ => .ok [.mk ty sz v d off cs]
termination_by c => nodes_view c
decreasing_by
  simp only [nodes_view, nodes_superimpose]
  omega

def flatten_children (policy : column_nullability) : ColumnList → Except FlattenError (List ColumnView)
  | .nil => .ok []
  | .cons c cs => do
    let l ← flatten_column policy c
    let r ← flatten_children policy cs
    .ok (l ++ r)
termination_by cs => nodes_children cs
decreasing_by
  all_goals simp only [nodes_children]
  all_goals omega

end

/-- Modelled from the spec (section 4.3): `flatten_nested_columns` over a
table, emitting each column's leaves in order.  The auxiliary
column-order/null-precedence vectors are threaded 1:1 per leaf in the
source and carry no validity semantics; they are omitted here. -/
def flatten_nested_columns : List ColumnView → column_nullability → Except FlattenError (List ColumnView)
  | [], _ => .ok []
  | c :: rest, policy => do
    let l ← flatten_column policy c
    let r ← flatten_nested_columns rest policy
    .ok (l ++ r)

mutual

/-- Modelled from the spec (section 4.3): unflattening one template column,
consuming columns from the flat table.  A leaf position consumes the next
flat column; a STRUCT position recursively consumes its member count and is
rewrapped with the template's own struct-level validity.  Exhausting the
flat table before the template is a structural mismatch. -/
def unflatten_column : ColumnView → List ColumnView → Except FlattenError (ColumnView × List ColumnView)
  | .mk ty sz v d off cs, flat =>
    if ty = ColType.struct then
      match unflatten_children cs flat with
      | .error e => .error e
      | .ok (cs', rest) => .ok (.mk ty sz v d off cs', rest)
    else
      match flat with
      | [] => .error .TypeMismatch
      | c :: rest => .ok (c, rest)

def unflatten_children : ColumnList → List ColumnView → Except FlattenError (ColumnList × List ColumnView)
  | .nil, flat => .ok (.nil, flat)
  | .cons t ts, flat =>
    match unflatten_column t flat with
    | .error e => .error e
    | .ok (c', rest) =>
      match unflatten_children ts rest with
      | .error e => .error e
      | .ok (cs', rest') => .ok (.cons c' cs', rest')

end

/-- Modelled from the spec (section 4.3): `unflatten_nested_columns(flat,
structural_template)` walks the template table column by column. -/
def unflatten_nested_columns : List ColumnView → List ColumnView → Except FlattenError (List ColumnView)
  | _, [] => .ok []
  | flat, t :: ts =>
    match unflatten_column t flat with
    | .error e => .error e
    | .ok (c', rest) =>
      match unflatten_nested_columns rest ts with
      | .error e => .error e
      | .ok l => .ok (c' :: l)

mutual

/-- Whether a LIST column occurs at the top of the view or nested as a
struct member at any depth (the shapes the flatten transform rejects). -/
def has_list_view : ColumnView → Bool
  | .mk ty _ _ _ _ cs =>
    (ty == ColType.list) || ((ty == ColType.struct) && has_list_children cs)

def has_list_children : ColumnList → Bool
  | .nil => false
  | .cons c cs => has_list_view c || has_list_children cs

end

theorem except_error_bind {ε α β : Type} (e : ε) (f : α → Except ε β) :
    (Except.error e : Except ε α) >>= f = .error e := rfl

theorem except_ok_bind {ε α β : Type} (a : α) (f : α → Except ε β) :
    (Except.ok a : Except ε α) >>= f = f a := rfl

theorem except_bind_error {ε α β : Type} (x : Except ε α) (f : α → Except ε β) (e : ε) :
    (x >>= f = .error e) ↔ (x = .error e ∨ ∃ a, x = .ok a ∧ f a = .error e) := by
  cases x with
  | error e' => simp [except_error_bind]
  | ok a => simp [except_ok_bind]

theorem except_bind_ok {ε α β : Type} (x : Except ε α) (f : α → Except ε β) (b : β) :
    (x >>= f = .ok b) ↔ (∃ a, x = .ok a ∧ f a = .ok b) := by
  cases x with
  | error e' => simp [except_error_bind]
  | ok a => simp [except_ok_bind]

theorem flatten_children_cons (policy : column_nullability) (c : ColumnView) (cs : ColumnList) :
    flatten_children policy (.cons c cs) =
      (flatten_column policy c) >>= fun l =>
        (flatten_children policy cs) >>= fun r => .ok (l ++ r) := by
  rw [flatten_children]

/-- The mask a leaf column is emitted with: the FORCE policy rewraps a
mask-less leaf with an explicit all-valid mask, everything else is kept. -/
def force_mask (policy : column_nullability) (sz : Nat) (v : Option Bitmask) : Option Bitmask :=
  match policy, v with
  | .FORCE, none => some ⟨List.replicate sz true, 0⟩
  | _, v => v

theorem flatten_column_leaf (policy : column_nullability) (ty : ColType) (sz : Nat)
    (v : Option Bitmask) (d : List Nat) (off : Nat) (cs : ColumnList)
    (hl : ty ≠ ColType.list) (hs : ty ≠ ColType.struct) :
    flatten_column policy (.mk ty sz v d off cs) =
      .ok [.mk ty sz (force_mask policy sz v) d off cs] := by
  cases policy <;> cases v <;> simp [flatten_column.eq_def, force_mask, hl, hs]

theorem flatten_column_list (policy : column_nullability) (sz : Nat)
    (v : Option Bitmask) (d : List Nat) (off : Nat) (cs : ColumnList) :
    flatten_column policy (.mk .list sz v d off cs) = .error .StructuralUnsupported := by
  simp [flatten_column.eq_def]

theorem flatten_column_struct (policy : column_nullability) (sz : Nat)
    (v : Option Bitmask) (d : List Nat) (off : Nat) (cs : ColumnList) :
    flatten_column policy (.mk .struct sz v d off cs) =
      flatten_children policy (superimpose_children v sz cs).1 := by
  simp [flatten_column.eq_def]

/-- Flattening a struct child that has already been superimposed re-runs the
superimposer on its children, which by idempotence changes nothing. -/
theorem flatten_struct_tc (policy : column_nullability) (csz : Nat) (vX : Option Bitmask)
    (cd : List Nat) (coff : Nat) (ccs : ColumnList) :
    flatten_column policy (.mk .struct csz vX cd coff (superimpose_children vX csz ccs).1) =
      flatten_children policy (superimpose_children vX csz ccs).1 := by
  rw [flatten_column_struct]
  rw [superimpose_children_idem]

theorem flatten_children_cons_error (policy : column_nullability) (tc : ColumnView)
    (tail : ColumnList) (e : FlattenError)
    (hE : flatten_children policy (.cons tc tail) = .error e) :
    flatten_column policy tc = .error e ∨
      (∃ l, flatten_column policy tc = .ok l ∧ flatten_children policy tail = .error e) := by
  rw [flatten_children_cons, except_bind_error] at hE
  rcases hE with hE | ⟨a, ha, hE⟩
  · exact Or.inl hE
  · rw [except_bind_error] at hE
    rcases hE with hE | ⟨b, _, hE⟩
    · exact Or.inr ⟨a, ha, hE⟩
    · exact absurd hE (by simp)

theorem flatten_children_cons_ok (policy : column_nullability) (tc : ColumnView)
    (tail : ColumnList) (r : List ColumnView) :
    flatten_children policy (.cons tc tail) = .ok r ↔
      ∃ l t, flatten_column policy tc = .ok l ∧ flatten_children policy tail = .ok t ∧
        r = l ++ t := by
  rw [flatten_children_cons]
  constructor
  · intro hE
    rw [except_bind_ok] at hE
    rcases hE with ⟨a, ha, hE⟩
    rw [except_bind_ok] at hE
    rcases hE with ⟨b, hb, hE⟩
    exact ⟨a, b, ha, hb, by injection hE with h; exact h.symm⟩
  · rintro ⟨l, t, hl, ht, rfl⟩
    rw [hl, except_ok_bind, ht, except_ok_bind]

theorem flatten_children_cons_head_error (policy : column_nullability) (tc : ColumnView)
    (tail : ColumnList) (e : FlattenError) (h : flatten_column policy tc = .error e) :
    flatten_children policy (.cons tc tail) = .error e := by
  rw [flatten_children_cons, h, except_error_bind]

/-- The flatten transform has a single failure mode: any error it returns is
`StructuralUnsupported` (children level, over superimposed children). -/
theorem flatten_children_error_SU :
    ∀ cs policy v sz e,
      flatten_children policy (superimpose_children v sz cs).1 = .error e →
        e = .StructuralUnsupported := by
  have h := ColumnView.ind_pair
    (fun c => ∀ policy v sz e,
      flatten_children policy (superimpose_children v sz c.children).1 = .error e →
        e = .StructuralUnsupported)
    (fun cs => ∀ policy v sz e,
      flatten_children policy (superimpose_children v sz cs).1 = .error e →
        e = .StructuralUnsupported)
    (fun _ _ _ _ _ _ ih => ih)
    (by
      intro policy v sz e hE
      simp [superimpose_children, flatten_children] at hE)
    ?_
  · exact h.2
  intro c cs ihc ihcs policy v sz e hE
  cases c with
  | mk cty csz cv cd coff ccs =>
    simp only [ColumnView.children] at ihc
    by_cases hinv : has_invalid v sz = true <;> by_cases hty : cty = ColType.struct
    · subst hty
      simp only [superimpose_children, hinv, if_true] at hE
      rcases flatten_children_cons_error policy _ _ e hE with hHd | ⟨l, _, hTl⟩
      · rw [flatten_struct_tc] at hHd
        exact ihc policy (some (and_masks v cv sz)) csz e hHd
      · exact ihcs policy v sz e hTl
    · simp only [superimpose_children, hinv, if_true, hty, if_false] at hE
      rcases flatten_children_cons_error policy _ _ e hE with hHd | ⟨l, _, hTl⟩
      · by_cases hl : cty = ColType.list
        · subst hl
          rw [flatten_column_list] at hHd
          exact (Except.error.inj hHd).symm
        · rw [flatten_column_leaf policy cty csz _ cd coff ccs hl hty] at hHd
          exact absurd hHd (by simp)
      · exact ihcs policy v sz e hTl
    · subst hty
      simp only [Bool.not_eq_true] at hinv
      simp only [superimpose_children, hinv, Bool.false_eq_true, if_false, if_pos] at hE
      rcases flatten_children_cons_error policy _ _ e hE with hHd | ⟨l, _, hTl⟩
      · rw [flatten_struct_tc] at hHd
        exact ihc policy cv csz e hHd
      · exact ihcs policy v sz e hTl
    · simp only [Bool.not_eq_true] at hinv
      simp only [superimpose_children, hinv, Bool.false_eq_true, if_false, hty] at hE
      rcases flatten_children_cons_error policy _ _ e hE with hHd | ⟨l, _, hTl⟩
      · by_cases hl : cty = ColType.list
        · subst hl
          rw [flatten_column_list] at hHd
          exact (Except.error.inj hHd).symm
        · rw [flatten_column_leaf policy cty csz cv cd coff ccs hl hty] at hHd
          exact absurd hHd (by simp)
      · exact ihcs policy v sz e hTl

/-- The flatten transform has a single failure mode (one column). -/
theorem flatten_column_error_SU (c : ColumnView) (policy : column_nullability)
    (e : FlattenError) (hE : flatten_column policy c = .error e) :
    e = .StructuralUnsupported := by
  cases c with
  | mk ty sz v d off cs =>
    by_cases hl : ty = ColType.list
    · subst hl
      rw [flatten_column_list] at hE
      exact (Except.error.inj hE).symm
    · by_cases hs : ty = ColType.struct
      · subst hs
        rw [flatten_column_struct] at hE
        exact flatten_children_error_SU cs policy v sz e hE
      · rw [flatten_column_leaf policy ty sz v d off cs hl hs] at hE
        exact absurd hE (by simp)

/-- Flattening children containing a LIST column (at the top of a member or
nested deeper inside struct members) fails with `StructuralUnsupported`. -/
theorem flatten_children_has_list_SU :
    ∀ cs policy v sz, has_list_children cs = true →
      flatten_children policy (superimpose_children v sz cs).1 =
        .error .StructuralUnsupported := by
  have h := ColumnView.ind_pair
    (fun c => ∀ policy v sz, has_list_children c.children = true →
      flatten_children policy (superimpose_children v sz c.children).1 =
        .error .StructuralUnsupported)
    (fun cs => ∀ policy v sz, has_list_children cs = true →
      flatten_children policy (superimpose_children v sz cs).1 =
        .error .StructuralUnsupported)
    (fun _ _ _ _ _ _ ih => ih)
    (by intro policy v sz hL; simp [has_list_children] at hL)
    ?_
  · exact h.2
  intro c cs ihc ihcs policy v sz hL
  cases c with
  | mk cty csz cv cd coff ccs =>
    simp only [ColumnView.children] at ihc
    simp only [has_list_children, has_list_view, Bool.or_eq_true, Bool.and_eq_true,
      beq_iff_eq] at hL
    by_cases hinv : has_invalid v sz = true <;> by_cases hty : cty = ColType.struct
    · subst hty
      simp only [superimpose_children, hinv, if_true, if_pos]
      rcases hL with (hLhd | ⟨_, hLcc⟩) | hLtl
    -- a STRUCT head cannot be LIST-typed
      · exact absurd hLhd (by decide)
      · apply flatten_children_cons_head_error
        rw [flatten_struct_tc]
        exact ihc policy (some (and_masks v cv sz)) csz hLcc
      · cases hfc : flatten_column policy (.mk ColType.struct csz
            (some (and_masks v cv sz)) cd coff
            (superimpose_children (some (and_masks v cv sz)) csz ccs).1) with
        | error e' =>
          have := flatten_column_error_SU _ policy e' hfc
          subst this
          exact flatten_children_cons_head_error policy _ _ _ hfc
        | ok l =>
          rw [flatten_children_cons, hfc, except_ok_bind, ihcs policy v sz hLtl,
            except_error_bind]
    · simp only [superimpose_children, hinv, if_true, hty, if_false]
      rcases hL with (hLhd | ⟨hTy, _⟩) | hLtl
      · subst hLhd
        exact flatten_children_cons_head_error policy _ _ _
          (flatten_column_list policy csz _ cd coff ccs)
      · exact absurd hTy hty
      · cases hfc : flatten_column policy (.mk cty csz
            (some (and_masks v cv sz)) cd coff ccs) with
        | error e' =>
          have := flatten_column_error_SU _ policy e' hfc
          subst this
          exact flatten_children_cons_head_error policy _ _ _ hfc
        | ok l =>
          rw [flatten_children_cons, hfc, except_ok_bind, ihcs policy v sz hLtl,
            except_error_bind]
    · subst hty
      simp only [Bool.not_eq_true] at hinv
      simp only [superimpose_children, hinv, Bool.false_eq_true, if_false, if_pos]
      rcases hL with (hLhd | ⟨_, hLcc⟩) | hLtl
      · exact absurd hLhd (by decide)
      · apply flatten_children_cons_head_error
        rw [flatten_struct_tc]
        exact ihc policy cv csz hLcc
      · cases hfc : flatten_column policy (.mk ColType.struct csz cv cd coff
            (superimpose_children cv csz ccs).1) with
        | error e' =>
          have := flatten_column_error_SU _ policy e' hfc
          subst this
          exact flatten_children_cons_head_error policy _ _ _ hfc
        | ok l =>
          rw [flatten_children_cons, hfc, except_ok_bind, ihcs policy v sz hLtl,
            except_error_bind]
    · simp only [Bool.not_eq_true] at hinv
      simp only [superimpose_children, hinv, Bool.false_eq_true, if_false, hty]
      rcases hL with (hLhd | ⟨hTy, _⟩) | hLtl
      · subst hLhd
        exact flatten_children_cons_head_error policy _ _ _
          (flatten_column_list policy csz cv cd coff ccs)
      · exact absurd hTy hty
      · cases hfc : flatten_column policy (.mk cty csz cv cd coff ccs) with
        | error e' =>
          have := flatten_column_error_SU _ policy e' hfc
          subst this
          exact flatten_children_cons_head_error policy _ _ _ hfc
        | ok l =>
          rw [flatten_children_cons, hfc, except_ok_bind, ihcs policy v sz hLtl,
            except_error_bind]

/-- Flattening a single column containing a LIST anywhere (at its top or as
a struct member at any depth) fails with `StructuralUnsupported`. -/
theorem flatten_column_has_list_SU (c : ColumnView) (policy : column_nullability)
    (hL : has_list_view c = true) :
    flatten_column policy c = .error .StructuralUnsupported := by
  cases c with
  | mk ty sz v d off cs =>
    simp only [has_list_view, Bool.or_eq_true, Bool.and_eq_true, beq_iff_eq] at hL
    rcases hL with hl | ⟨hs, hcs⟩
    · subst hl
      exact flatten_column_list policy sz v d off cs
    · subst hs
      rw [flatten_column_struct]
      exact flatten_children_has_list_SU cs policy v sz hcs

theorem flatten_table_cons (policy : column_nullability) (c : ColumnView)
    (rest : List ColumnView) :
    flatten_nested_columns (c :: rest) policy =
      (flatten_column policy c) >>= fun l =>
        (flatten_nested_columns rest policy) >>= fun r => .ok (l ++ r) := by
  rw [flatten_nested_columns]

/-- C2: flattening any table containing a LIST column anywhere — top-level,
or nested as a struct member at any depth — fails with
`StructuralUnsupported` (whatever the nullability policy and the other
columns' shapes), returning no partial flat table. -/
theorem C2_lists_rejected (t : List ColumnView) (policy : column_nullability)
    (hL : ∃ c ∈ t, has_list_view c = true) :
    flatten_nested_columns t policy = .error .StructuralUnsupported := by
  induction t with
  | nil => simp at hL
  | cons c rest ih =>
    rcases hL with ⟨x, hx, hxl⟩
    rw [List.mem_cons] at hx
    rcases hx with rfl | hx
    · rw [flatten_table_cons, flatten_column_has_list_SU x policy hxl, except_error_bind]
    · cases hfc : flatten_column policy c with
      | error e' =>
        have he := flatten_column_error_SU c policy e' hfc
        subst he
        rw [flatten_table_cons, hfc, except_error_bind]
      | ok l =>
        rw [flatten_table_cons, hfc, except_ok_bind, ih ⟨x, hx, hxl⟩, except_error_bind]

/-- The 3-row list column of test `ListsAtTopLevelUnsupported`. -/
def lists_top_col : ColumnView :=
  .mk .list 3 none [0, 1, 22, 33, 44, 55, 66] 0 .nil

/-- The 3-row numeric column of test `ListsAtTopLevelUnsupported`. -/
def nums_top_col : ColumnView :=
  .mk .fixed_width 3 none [0, 1, 2] 0 .nil

/-- C2 witness: the table of test `ListsAtTopLevelUnsupported` (a top-level
list column alongside a numeric column) flattens to `StructuralUnsupported`
under the FORCE policy. -/
theorem C2_lists_rejected_witness :
    (∃ c ∈ [lists_top_col, nums_top_col], has_list_view c = true) ∧
    flatten_nested_columns [lists_top_col, nums_top_col] .FORCE =
      .error .StructuralUnsupported :=
  ⟨by decide, C2_lists_rejected [lists_top_col, nums_top_col] .FORCE (by decide)⟩

theorem force_mask_isSome (sz : Nat) (v : Option Bitmask) :
    (force_mask .FORCE sz v).isSome = true := by
  cases v <;> rfl

theorem force_mask_EQUIVALENT (sz : Nat) (v : Option Bitmask) :
    force_mask .EQUIVALENT sz v = v := by
  cases v <;> rfl

/-- A mask has an invalid row in range iff some logical row below the row
count reads an unset bit. -/
theorem has_invalid_iff (v : Option Bitmask) (sz : Nat) :
    has_invalid v sz = true ↔ ∃ i, i < sz ∧ valid_at v i = false := by
  unfold has_invalid
  rw [List.any_eq_true]
  constructor
  · rintro ⟨i, hi, hv⟩
    refine ⟨i, List.mem_range.1 hi, ?_⟩
    revert hv
    cases valid_at v i <;> simp
  · rintro ⟨i, hi, hv⟩
    refine ⟨i, List.mem_range.2 hi, ?_⟩
    rw [hv]
    simp

/-- An AND with a mask that has an invalid row in range again has an invalid
row in range. -/
theorem has_invalid_and_masks (v cv : Option Bitmask) (sz : Nat)
    (h : has_invalid v sz = true) :
    has_invalid (some (and_masks v cv sz)) sz = true := by
  rw [has_invalid_iff] at h ⊢
  obtain ⟨i, hi, hv⟩ := h
  refine ⟨i, hi, ?_⟩
  have e1 : valid_at (some (and_masks v cv sz)) i = (valid_at v i && valid_at cv i) :=
    and_masks_getD v cv sz i hi
  rw [e1, hv]
  rfl

/-- Every leaf emitted by the flatten transform under FORCE carries a
validity mask (children level, over superimposed children). -/
theorem flatten_children_FORCE_nullable :
    ∀ cs v sz l, flatten_children .FORCE (superimpose_children v sz cs).1 = .ok l →
      ∀ x ∈ l, x.validity.isSome = true := by
  have h := ColumnView.ind_pair
    (fun c => ∀ v sz l,
      flatten_children .FORCE (superimpose_children v sz c.children).1 = .ok l →
        ∀ x ∈ l, x.validity.isSome = true)
    (fun cs => ∀ v sz l,
      flatten_children .FORCE (superimpose_children v sz cs).1 = .ok l →
        ∀ x ∈ l, x.validity.isSome = true)
    (fun _ _ _ _ _ _ ih => ih)
    (by
      intro v sz l hO x hx
      simp [superimpose_children, flatten_children] at hO
      subst hO
      simp at hx)
    ?_
  · exact h.2
  intro c cs ihc ihcs v sz l hO x hx
  cases c with
  | mk cty csz cv cd coff ccs =>
    simp only [ColumnView.children] at ihc
    by_cases hinv : has_invalid v sz = true <;> by_cases hty : cty = ColType.struct
    · subst hty
      simp only [superimpose_children, hinv, if_true] at hO
      rw [flatten_children_cons_ok] at hO
      obtain ⟨lh, lt, hHd, hTl, rfl⟩ := hO
      rw [flatten_struct_tc] at hHd
      rcases List.mem_append.1 hx with hxh | hxt
      · exact ihc (some (and_masks v cv sz)) csz lh hHd x hxh
      · exact ihcs v sz lt hTl x hxt
    · simp only [superimpose_children, hinv, if_true, hty, if_false] at hO
      rw [flatten_children_cons_ok] at hO
      obtain ⟨lh, lt, hHd, hTl, rfl⟩ := hO
      by_cases hl : cty = ColType.list
      · subst hl
        rw [flatten_column_list] at hHd
        exact absurd hHd (by simp)
      · rw [flatten_column_leaf _ cty csz _ cd coff ccs hl hty] at hHd
        injection hHd with hlh
        subst hlh
        rcases List.mem_append.1 hx with hxh | hxt
        · rw [List.mem_singleton] at hxh
          subst hxh
          show (force_mask .FORCE sz (some (and_masks v cv sz))).isSome = true
          exact force_mask_isSome sz _
        · exact ihcs v sz lt hTl x hxt
    · subst hty
      simp only [Bool.not_eq_true] at hinv
      simp only [superimpose_children, hinv, Bool.false_eq_true, if_false,
        eq_self_iff_true, if_true] at hO
      rw [flatten_children_cons_ok] at hO
      obtain ⟨lh, lt, hHd, hTl, rfl⟩ := hO
      rw [flatten_struct_tc] at hHd
      rcases List.mem_append.1 hx with hxh | hxt
      · exact ihc cv csz lh hHd x hxh
      · exact ihcs v sz lt hTl x hxt
    · simp only [Bool.not_eq_true] at hinv
      simp only [superimpose_children, hinv, Bool.false_eq_true, if_false, hty] at hO
      rw [flatten_children_cons_ok] at hO
      obtain ⟨lh, lt, hHd, hTl, rfl⟩ := hO
      by_cases hl : cty = ColType.list
      · subst hl
        rw [flatten_column_list] at hHd
        exact absurd hHd (by simp)
      · rw [flatten_column_leaf _ cty csz cv cd coff ccs hl hty] at hHd
        injection hHd with hlh
        subst hlh
        rcases List.mem_append.1 hx with hxh | hxt
        · rw [List.mem_singleton] at hxh
          subst hxh
          show (force_mask .FORCE csz cv).isSome = true
          exact force_mask_isSome csz cv
        · exact ihcs v sz lt hTl x hxt

mutual

/-- The per-leaf non-nullability the EQUIVALENT policy actually produces,
computed from the source column: a leaf comes out non-nullable exactly when
it originally carries no mask and no struct ancestor (within this column)
has an invalid row in its range.  `anc` records whether some ancestor
already has an invalid row. -/
def equiv_nonnull_flags (anc : Bool) : ColumnView → List Bool
  | .mk ty sz v _ _ cs =>
    if ty = ColType.struct then equiv_flags_children (anc || has_invalid v sz) cs
    else [!anc && v.isNone]

def equiv_flags_children (anc : Bool) : ColumnList → List Bool
  | .nil => []
  | .cons c cs => equiv_nonnull_flags anc c ++ equiv_flags_children anc cs

end

/-- The EQUIVALENT policy emits, for the children of a well-formed struct,
exactly the non-nullability pattern of `equiv_flags_children`. -/
theorem flatten_children_EQUIV_flags :
    ∀ cs v sz l, sizes_eq cs sz = true → wf_children cs = true →
      flatten_children .EQUIVALENT (superimpose_children v sz cs).1 = .ok l →
        l.map (fun e => e.validity.isNone) = equiv_flags_children (has_invalid v sz) cs := by
  have h := ColumnView.ind_pair
    (fun c => ∀ v sz l, sizes_eq c.children sz = true → wf_children c.children = true →
      flatten_children .EQUIVALENT (superimpose_children v sz c.children).1 = .ok l →
        l.map (fun e => e.validity.isNone) =
          equiv_flags_children (has_invalid v sz) c.children)
    (fun cs => ∀ v sz l, sizes_eq cs sz = true → wf_children cs = true →
      flatten_children .EQUIVALENT (superimpose_children v sz cs).1 = .ok l →
        l.map (fun e => e.validity.isNone) = equiv_flags_children (has_invalid v sz) cs)
    (fun _ _ _ _ _ _ ih => ih)
    (by
      intro v sz l _ _ hO
      simp [superimpose_children, flatten_children] at hO
      subst hO
      simp [equiv_flags_children])
    ?_
  · exact h.2
  intro c cs ihc ihcs v sz l hsz hwf hO
  cases c with
  | mk cty csz cv cd coff ccs =>
    simp only [ColumnView.children] at ihc
    simp only [sizes_eq, Bool.and_eq_true, beq_iff_eq, ColumnView.size] at hsz
    simp only [wf_children, Bool.and_eq_true] at hwf
    by_cases hinv : has_invalid v sz = true <;> by_cases hty : cty = ColType.struct
    · subst hty
      have hwfc : sizes_eq ccs csz = true ∧ wf_children ccs = true := by
        have hh := hwf.1
        simp only [wf_view, Bool.and_eq_true] at hh
        exact ⟨by simpa using hh.1, hh.2⟩
      simp only [superimpose_children, hinv, if_true, eq_self_iff_true] at hO
      rw [flatten_children_cons_ok] at hO
      obtain ⟨lh, lt, hHd, hTl, rfl⟩ := hO
      rw [flatten_struct_tc] at hHd
      have hhd := ihc (some (and_masks v cv sz)) csz lh hwfc.1 hwfc.2 hHd
      have htl := ihcs v sz lt hsz.2 hwf.2 hTl
      rw [List.map_append, hhd, htl]
      have hANDinv : has_invalid (some (and_masks v cv sz)) csz = true := by
        rw [hsz.1]
        exact has_invalid_and_masks v cv sz hinv
      simp [equiv_flags_children, equiv_nonnull_flags, hinv, hANDinv]
    · simp only [superimpose_children, hinv, if_true, hty, if_false,
        eq_self_iff_true] at hO
      rw [flatten_children_cons_ok] at hO
      obtain ⟨lh, lt, hHd, hTl, rfl⟩ := hO
      by_cases hl : cty = ColType.list
      · subst hl
        rw [flatten_column_list] at hHd
        exact absurd hHd (by simp)
      · rw [flatten_column_leaf _ cty csz _ cd coff ccs hl hty] at hHd
        injection hHd with hlh
        subst hlh
        have htl := ihcs v sz lt hsz.2 hwf.2 hTl
        rw [List.map_append, htl]
        simp [equiv_flags_children, equiv_nonnull_flags, hinv, hty,
          force_mask_EQUIVALENT, ColumnView.validity]
    · subst hty
      have hwfc : sizes_eq ccs csz = true ∧ wf_children ccs = true := by
        have hh := hwf.1
        simp only [wf_view, Bool.and_eq_true] at hh
        exact ⟨by simpa using hh.1, hh.2⟩
      simp only [Bool.not_eq_true] at hinv
      simp only [superimpose_children, hinv, Bool.false_eq_true, if_false,
        eq_self_iff_true, if_true] at hO
      rw [flatten_children_cons_ok] at hO
      obtain ⟨lh, lt, hHd, hTl, rfl⟩ := hO
      rw [flatten_struct_tc] at hHd
      have hhd := ihc cv csz lh hwfc.1 hwfc.2 hHd
      have htl := ihcs v sz lt hsz.2 hwf.2 hTl
      rw [List.map_append, hhd, htl]
      simp [equiv_flags_children, equiv_nonnull_flags, hinv]
    · simp only [Bool.not_eq_true] at hinv
      simp only [superimpose_children, hinv, Bool.false_eq_true, if_false, hty] at hO
      rw [flatten_children_cons_ok] at hO
      obtain ⟨lh, lt, hHd, hTl, rfl⟩ := hO
      by_cases hl : cty = ColType.list
      · subst hl
        rw [flatten_column_list] at hHd
        exact absurd hHd (by simp)
      · rw [flatten_column_leaf _ cty csz cv cd coff ccs hl hty] at hHd
        injection hHd with hlh
        subst hlh
        have htl := ihcs v sz lt hsz.2 hwf.2 hTl
        rw [List.map_append, htl]
        simp [equiv_flags_children, equiv_nonnull_flags, hinv, hty,
          force_mask_EQUIVALENT, ColumnView.validity]

/-- FORCE makes every emitted leaf of one column nullable. -/
theorem flatten_column_FORCE_nullable (c : ColumnView) (l : List ColumnView)
    (hO : flatten_column .FORCE c = .ok l) :
    ∀ x ∈ l, x.validity.isSome = true := by
  cases c with
  | mk ty sz v d off cs =>
    by_cases hl : ty = ColType.list
    · subst hl
      rw [flatten_column_list] at hO
      exact absurd hO (by simp)
    · by_cases hs : ty = ColType.struct
      · subst hs
        rw [flatten_column_struct] at hO
        exact flatten_children_FORCE_nullable cs v sz l hO
      · rw [flatten_column_leaf _ ty sz v d off cs hl hs] at hO
        injection hO with hlh
        subst hlh
        intro x hx
        rw [List.mem_singleton] at hx
        subst hx
        show (force_mask .FORCE sz v).isSome = true
        exact force_mask_isSome sz v

/-- EQUIVALENT emits one well-formed column's leaves with exactly the
non-nullability pattern of `equiv_nonnull_flags`. -/
theorem flatten_column_EQUIV_flags (c : ColumnView) (l : List ColumnView)
    (hwf : wf_view c = true) (hO : flatten_column .EQUIVALENT c = .ok l) :
    l.map (fun e => e.validity.isNone) = equiv_nonnull_flags false c := by
  cases c with
  | mk ty sz v d off cs =>
    by_cases hl : ty = ColType.list
    · subst hl
      rw [flatten_column_list] at hO
      exact absurd hO (by simp)
    · by_cases hs : ty = ColType.struct
      · subst hs
        rw [flatten_column_struct] at hO
        simp only [wf_view, Bool.and_eq_true] at hwf
        have h := flatten_children_EQUIV_flags cs v sz l (by simpa using hwf.1) hwf.2 hO
        rw [h]
        simp [equiv_nonnull_flags]
      · rw [flatten_column_leaf _ ty sz v d off cs hl hs] at hO
        injection hO with hlh
        subst hlh
        simp [equiv_nonnull_flags, hs, force_mask_EQUIVALENT, ColumnView.validity]

/-- The non-nullability pattern EQUIVALENT produces for a whole table. -/
def table_equiv_flags : List ColumnView → List Bool
  | [] => []
  | c :: rest => equiv_nonnull_flags false c ++ table_equiv_flags rest

/-- C9 (amended): under FORCE every column emitted by the flatten transform
carries a validity mask (is nullable); under EQUIVALENT an emitted leaf of a
well-formed table is non-nullable exactly when its source leaf carries no
mask and no struct ancestor has an invalid row in its range. -/
theorem C9_nullability_policies :
    (∀ t F, flatten_nested_columns t .FORCE = .ok F →
      ∀ x ∈ F, x.validity.isSome = true) ∧
    (∀ t, (∀ c ∈ t, wf_view c = true) →
      ∀ F, flatten_nested_columns t .EQUIVALENT = .ok F →
        F.map (fun e => e.validity.isNone) = table_equiv_flags t) := by
  constructor
  · intro t
    induction t with
    | nil =>
      intro F hF x hx
      rw [show flatten_nested_columns [] .FORCE = .ok [] from rfl] at hF
      injection hF with h
      subst h
      simp at hx
    | cons c rest ih =>
      intro F hF x hx
      rw [flatten_table_cons] at hF
      rw [except_bind_ok] at hF
      obtain ⟨lh, hHd, hF⟩ := hF
      rw [except_bind_ok] at hF
      obtain ⟨lt, hTl, hF⟩ := hF
      injection hF with hF
      subst hF
      rcases List.mem_append.1 hx with hxh | hxt
      · exact flatten_column_FORCE_nullable c lh hHd x hxh
      · exact ih lt hTl x hxt
  · intro t
    induction t with
    | nil =>
      intro _ F hF
      rw [show flatten_nested_columns [] .EQUIVALENT = .ok [] from rfl] at hF
      injection hF with h
      subst h
      rfl
    | cons c rest ih =>
      intro hwf F hF
      rw [flatten_table_cons] at hF
      rw [except_bind_ok] at hF
      obtain ⟨lh, hHd, hF⟩ := hF
      rw [except_bind_ok] at hF
      obtain ⟨lt, hTl, hF⟩ := hF
      injection hF with hF
      subst hF
      rw [List.map_append]
      rw [flatten_column_EQUIV_flags c lh (hwf c (List.mem_cons_self c rest)) hHd]
      rw [ih (fun x hx => hwf x (List.mem_cons_of_mem c hx)) lt hTl]
      rfl

/-- The 3-row numeric leaf with an all-valid explicit mask used to refute
C9's "exactly when" reading. -/
def c9_leaf : ColumnView :=
  .mk .fixed_width 3 (some ⟨[true, true, true], 0⟩) [1, 2, 3] 0 .nil

/-- C9 counterexample: under EQUIVALENT, a leaf that carries an all-valid
mask — so neither it nor any ancestor ever carries a null — is still emitted
nullable (mask kept), refuting "non-nullable exactly when neither it nor any
ancestor carries a null". -/
theorem C9_counterexample :
    flatten_nested_columns [c9_leaf] .EQUIVALENT = .ok [c9_leaf] ∧
    c9_leaf.validity.isSome = true ∧
    ((List.range 3).map (fun i => valid_at c9_leaf.validity i) = [true, true, true]) := by
  refine ⟨?_, by decide, by decide⟩
  rw [flatten_table_cons]
  simp only [c9_leaf]
  rw [flatten_column_leaf _ _ _ _ _ _ _ (by decide) (by decide)]
  rfl

/-- C9 witness: both policies at concrete single-column tables — a mask-less
3-row numeric leaf is rewrapped nullable under FORCE, and under EQUIVALENT
the same leaf stays non-nullable while `c9_leaf` (all-valid mask) stays
nullable, matching `table_equiv_flags`. -/
theorem C9_nullability_policies_witness :
    (flatten_nested_columns [nums_top_col] .FORCE =
      .ok [.mk .fixed_width 3 (some ⟨[true, true, true], 0⟩) [0, 1, 2] 0 .nil] ∧
      (∀ x ∈ [ColumnView.mk .fixed_width 3 (some ⟨[true, true, true], 0⟩) [0, 1, 2] 0 .nil],
        x.validity.isSome = true)) ∧
    ((∀ c ∈ [nums_top_col, c9_leaf], wf_view c = true) ∧
      flatten_nested_columns [nums_top_col, c9_leaf] .EQUIVALENT =
        .ok [nums_top_col, c9_leaf] ∧
      ([nums_top_col, c9_leaf].map (fun e => e.validity.isNone) =
        table_equiv_flags [nums_top_col, c9_leaf])) := by
  have hF : flatten_nested_columns [nums_top_col] .FORCE =
      .ok [.mk .fixed_width 3 (some ⟨[true, true, true], 0⟩) [0, 1, 2] 0 .nil] := by
    rw [flatten_table_cons]
    simp only [nums_top_col]
    rw [flatten_column_leaf _ _ _ _ _ _ _ (by decide) (by decide)]
    rfl
  have hE : flatten_nested_columns [nums_top_col, c9_leaf] .EQUIVALENT =
      .ok [nums_top_col, c9_leaf] := by
    rw [flatten_table_cons]
    simp only [nums_top_col, c9_leaf]
    rw [flatten_column_leaf _ _ _ _ _ _ _ (by decide) (by decide)]
    rw [except_ok_bind, flatten_table_cons]
    rw [flatten_column_leaf _ _ _ _ _ _ _ (by decide) (by decide)]
    rfl
  refine ⟨⟨hF, C9_nullability_policies.1 [nums_top_col] _ hF⟩,
    ⟨by decide, hE, C9_nullability_policies.2 [nums_top_col, c9_leaf] (by decide) _ hE⟩⟩

theorem getD_replicate_true (n i : Nat) :
    (List.replicate n true).getD i true = true := by
  rcases Nat.lt_or_ge i n with h | h
  · rw [List.getD_eq_getElem _ _ (by simpa using h)]
    simp
  · rw [List.getD_eq_default _ _ (by simpa using h)]

/-- The FORCE rewrap of a leaf mask never changes per-row validity: a
replicate-true mask reads valid everywhere, like an absent mask. -/
theorem valid_at_force_mask_FORCE (sz : Nat) (v : Option Bitmask) (i : Nat) :
    valid_at (force_mask .FORCE sz v) i = valid_at v i := by
  cases v with
  | none =>
    show bit_is_valid ⟨List.replicate sz true, 0⟩ i = true
    unfold bit_is_valid
    simp only
    rw [Nat.zero_add]
    exact getD_replicate_true sz i
  | some m => rfl

theorem unflatten_column_struct_ok (sz : Nat) (v : Option Bitmask) (d : List Nat)
    (off : Nat) (cs : ColumnList) (flat : List ColumnView) (cs' : ColumnList)
    (rest : List ColumnView) (h : unflatten_children cs flat = .ok (cs', rest)) :
    unflatten_column (.mk .struct sz v d off cs) flat =
      .ok (.mk .struct sz v d off cs', rest) := by
  simp [unflatten_column, h]

theorem unflatten_column_leaf_ok (ty : ColType) (sz : Nat) (v : Option Bitmask)
    (d : List Nat) (off : Nat) (cs : ColumnList) (hs : ty ≠ ColType.struct)
    (c : ColumnView) (rest : List ColumnView) :
    unflatten_column (.mk ty sz v d off cs) (c :: rest) = .ok (c, rest) := by
  simp [unflatten_column, hs]

theorem unflatten_children_cons_ok (t : ColumnView) (ts : ColumnList)
    (flat : List ColumnView) (c' : ColumnView) (rest : List ColumnView)
    (cs' : ColumnList) (rest' : List ColumnView)
    (h1 : unflatten_column t flat = .ok (c', rest))
    (h2 : unflatten_children ts rest = .ok (cs', rest')) :
    unflatten_children (.cons t ts) flat = .ok (.cons c' cs', rest') := by
  simp [unflatten_children, h1, h2]

/-- Round trip at the children level: FORCE-flattening the superimposed
children of a well-formed, list-free struct succeeds, and unflattening those
leaves against the original children as template reconstructs children whose
rows (wherever the parent is valid) denote exactly as the originals. -/
theorem roundtrip_children :
    ∀ cs v sz, sizes_eq cs sz = true → wf_children cs = true →
      has_list_children cs = false →
      ∃ l cs'', flatten_children .FORCE (superimpose_children v sz cs).1 = .ok l ∧
        (∀ rest, unflatten_children cs (l ++ rest) = .ok (cs'', rest)) ∧
        (∀ i, i < sz → valid_at v i = true →
          denote_children cs'' i = denote_children cs i) := by
  have h := ColumnView.ind_pair
    (fun c => ∀ v sz, sizes_eq c.children sz = true → wf_children c.children = true →
      has_list_children c.children = false →
      ∃ l cs'', flatten_children .FORCE (superimpose_children v sz c.children).1 = .ok l ∧
        (∀ rest, unflatten_children c.children (l ++ rest) = .ok (cs'', rest)) ∧
        (∀ i, i < sz → valid_at v i = true →
          denote_children cs'' i = denote_children c.children i))
    (fun cs => ∀ v sz, sizes_eq cs sz = true → wf_children cs = true →
      has_list_children cs = false →
      ∃ l cs'', flatten_children .FORCE (superimpose_children v sz cs).1 = .ok l ∧
        (∀ rest, unflatten_children cs (l ++ rest) = .ok (cs'', rest)) ∧
        (∀ i, i < sz → valid_at v i = true →
          denote_children cs'' i = denote_children cs i))
    (fun _ _ _ _ _ _ ih => ih)
    (by
      intro v sz _ _ _
      exact ⟨[], .nil, by simp [superimpose_children, flatten_children],
        fun rest => rfl, fun i _ _ => rfl⟩)
    ?_
  · exact h.2
  intro c cs ihc ihcs v sz hsz hwf hnl
  cases c with
  | mk cty csz cv cd coff ccs =>
    simp only [ColumnView.children] at ihc
    simp only [sizes_eq, Bool.and_eq_true, beq_iff_eq, ColumnView.size] at hsz
    simp only [wf_children, Bool.and_eq_true] at hwf
    simp only [has_list_children, has_list_view, Bool.or_eq_false_iff,
      Bool.and_eq_false_iff, beq_eq_false_iff_ne] at hnl
    have hlist : cty ≠ ColType.list := hnl.1.1
    obtain ⟨lt, cst'', hflt, hunft, hdent⟩ := ihcs v sz hsz.2 hwf.2 hnl.2
    by_cases hinv : has_invalid v sz = true <;> by_cases hty : cty = ColType.struct
    · subst hty
      have hwfc : sizes_eq ccs csz = true ∧ wf_children ccs = true := by
        have hh := hwf.1
        simp only [wf_view, Bool.and_eq_true] at hh
        exact ⟨by simpa using hh.1, hh.2⟩
      have hccs : has_list_children ccs = false := by
        rcases hnl.1.2 with hh | hh
        · exact absurd rfl hh
        · exact hh
      obtain ⟨lh, ccs'', hflh, hunfh, hdenh⟩ :=
        ihc (some (and_masks v cv sz)) csz hwfc.1 hwfc.2 hccs
      refine ⟨lh ++ lt, .cons (.mk .struct csz cv cd coff ccs'') cst'', ?_, ?_, ?_⟩
      · simp only [superimpose_children, hinv, if_true, eq_self_iff_true]
        rw [flatten_children_cons_ok]
        exact ⟨lh, lt, by rw [flatten_struct_tc]; exact hflh, hflt, rfl⟩
      · intro rest
        apply unflatten_children_cons_ok
        · apply unflatten_column_struct_ok
          rw [List.append_assoc]
          exact hunfh (lt ++ rest)
        · exact hunft rest
      · intro i hi hv
        have hmask : valid_at (some (and_masks v cv sz)) i = valid_at cv i := by
          show bit_is_valid (and_masks v cv sz) i = valid_at cv i
          rw [and_masks_getD v cv sz i hi, hv, Bool.true_and]
        have hhead : denote_view (.mk .struct csz cv cd coff ccs'') i =
            denote_view (.mk .struct csz cv cd coff ccs) i := by
          cases hcv : valid_at cv i with
          | false => simp [denote_view, hcv]
          | true =>
            have hd := hdenh i (hsz.1 ▸ hi) (by rw [hmask]; exact hcv)
            simp [denote_view, hcv, hd]
        simp only [denote_children]
        rw [hhead, hdent i hi hv]
    · refine ⟨(.mk cty csz (some (and_masks v cv sz)) cd coff ccs) :: lt,
        .cons (.mk cty csz (some (and_masks v cv sz)) cd coff ccs) cst'', ?_, ?_, ?_⟩
      · simp only [superimpose_children, hinv, if_true, hty, if_false, eq_self_iff_true]
        rw [flatten_children_cons_ok]
        refine ⟨[.mk cty csz (some (and_masks v cv sz)) cd coff ccs], lt, ?_, hflt, rfl⟩
        rw [flatten_column_leaf _ cty csz _ cd coff ccs hlist hty]
        rfl
      · intro rest
        apply unflatten_children_cons_ok
        · exact unflatten_column_leaf_ok cty csz cv cd coff ccs hty _ _
        · exact hunft rest
      · intro i hi hv
        have hmask : valid_at (some (and_masks v cv sz)) i = valid_at cv i := by
          show bit_is_valid (and_masks v cv sz) i = valid_at cv i
          rw [and_masks_getD v cv sz i hi, hv, Bool.true_and]
        simp only [denote_children, denote_view, hmask]
        rw [hdent i hi hv]
    · subst hty
      simp only [Bool.not_eq_true] at hinv
      have hwfc : sizes_eq ccs csz = true ∧ wf_children ccs = true := by
        have hh := hwf.1
        simp only [wf_view, Bool.and_eq_true] at hh
        exact ⟨by simpa using hh.1, hh.2⟩
      have hccs : has_list_children ccs = false := by
        rcases hnl.1.2 with hh | hh
        · exact absurd rfl hh
        · exact hh
      obtain ⟨lh, ccs'', hflh, hunfh, hdenh⟩ := ihc cv csz hwfc.1 hwfc.2 hccs
      refine ⟨lh ++ lt, .cons (.mk .struct csz cv cd coff ccs'') cst'', ?_, ?_, ?_⟩
      · simp only [superimpose_children, hinv, Bool.false_eq_true, if_false,
          eq_self_iff_true, if_true]
        rw [flatten_children_cons_ok]
        exact ⟨lh, lt, by rw [flatten_struct_tc]; exact hflh, hflt, rfl⟩
      · intro rest
        apply unflatten_children_cons_ok
        · apply unflatten_column_struct_ok
          rw [List.append_assoc]
          exact hunfh (lt ++ rest)
        · exact hunft rest
      · intro i hi hv
        have hhead : denote_view (.mk .struct csz cv cd coff ccs'') i =
            denote_view (.mk .struct csz cv cd coff ccs) i := by
          cases hcv : valid_at cv i with
          | false => simp [denote_view, hcv]
          | true =>
            have hd := hdenh i (hsz.1 ▸ hi) hcv
            simp [denote_view, hcv, hd]
        simp only [denote_children]
        rw [hhead, hdent i hi hv]
    · simp only [Bool.not_eq_true] at hinv
      refine ⟨(.mk cty csz (force_mask .FORCE csz cv) cd coff ccs) :: lt,
        .cons (.mk cty csz (force_mask .FORCE csz cv) cd coff ccs) cst'', ?_, ?_, ?_⟩
      · simp only [superimpose_children, hinv, Bool.false_eq_true, if_false, hty]
        rw [flatten_children_cons_ok]
        refine ⟨[.mk cty csz (force_mask .FORCE csz cv) cd coff ccs], lt, ?_, hflt, rfl⟩
        rw [flatten_column_leaf _ cty csz cv cd coff ccs hlist hty]
      · intro rest
        apply unflatten_children_cons_ok
        · exact unflatten_column_leaf_ok cty csz cv cd coff ccs hty _ _
        · exact hunft rest
      · intro i hi hv
        simp only [denote_children, denote_view, valid_at_force_mask_FORCE]
        rw [hdent i hi hv]

/-- Round trip for a single column. -/
theorem roundtrip_column (c : ColumnView) (hwf : wf_view c = true)
    (hnl : has_list_view c = false) :
    ∃ l c'', flatten_column .FORCE c = .ok l ∧
      (∀ rest, unflatten_column c (l ++ rest) = .ok (c'', rest)) ∧
      c''.ty = c.ty ∧ c''.size = c.size ∧
      (∀ i, i < c.size → denote_view c'' i = denote_view c i) := by
  cases c with
  | mk ty sz v d off cs =>
    simp only [has_list_view, Bool.or_eq_false_iff, Bool.and_eq_false_iff,
      beq_eq_false_iff_ne] at hnl
    have hlist : ty ≠ ColType.list := hnl.1
    by_cases hty : ty = ColType.struct
    · subst hty
      simp only [wf_view, Bool.and_eq_true] at hwf
      have hccs : has_list_children cs = false := by
        rcases hnl.2 with hh | hh
        · exact absurd rfl hh
        · exact hh
      obtain ⟨l, cs'', hfl, hunf, hden⟩ :=
        roundtrip_children cs v sz (by simpa using hwf.1) hwf.2 hccs
      refine ⟨l, .mk .struct sz v d off cs'', ?_, ?_, rfl, rfl, ?_⟩
      · rw [flatten_column_struct]
        exact hfl
      · intro rest
        exact unflatten_column_struct_ok sz v d off cs (l ++ rest) cs'' rest (hunf rest)
      · intro i hi
        cases hv : valid_at v i with
        | false => simp [denote_view, hv]
        | true => simp [denote_view, hv, hden i hi hv]
    · refine ⟨[.mk ty sz (force_mask .FORCE sz v) d off cs],
        .mk ty sz (force_mask .FORCE sz v) d off cs, ?_, ?_, rfl, rfl, ?_⟩
      · exact flatten_column_leaf _ ty sz v d off cs hlist hty
      · intro rest
        exact unflatten_column_leaf_ok ty sz v d off cs hty _ _
      · intro i hi
        simp [denote_view, valid_at_force_mask_FORCE, hty]

theorem unflatten_table_cons_ok (t : ColumnView) (ts : List ColumnView)
    (flat : List ColumnView) (c' : ColumnView) (rest : List ColumnView)
    (l : List ColumnView)
    (h1 : unflatten_column t flat = .ok (c', rest))
    (h2 : unflatten_nested_columns rest ts = .ok l) :
    unflatten_nested_columns flat (t :: ts) = .ok (c' :: l) := by
  simp [unflatten_nested_columns, h1, h2]

/-- C1: for every table of well-formed columns with arbitrary struct nesting
but no list columns at any depth, FORCE-flattening succeeds and unflattening
the result against the original table as structural template reconstructs a
table row-wise logically equivalent to the original: same column types, same
row counts, and the same per-row null/value content at every nesting level
(captured by the row denotation). -/
theorem C1_round_trip (T : List ColumnView)
    (h : ∀ c ∈ T, wf_view c = true ∧ has_list_view c = false) :
    ∃ F R, flatten_nested_columns T .FORCE = .ok F ∧
      unflatten_nested_columns F T = .ok R ∧
      List.Forall₂ (fun r t => r.ty = t.ty ∧ r.size = t.size ∧
        ∀ i, i < t.size → denote_view r i = denote_view t i) R T := by
  induction T with
  | nil => exact ⟨[], [], rfl, rfl, List.Forall₂.nil⟩
  | cons c rest ih =>
    obtain ⟨l, c'', hfl, hunf, hty, hsz, hden⟩ :=
      roundtrip_column c (h c (List.mem_cons_self c rest)).1
        (h c (List.mem_cons_self c rest)).2
    obtain ⟨F', R', hflt, hunft, hfa⟩ := ih (fun x hx => h x (List.mem_cons_of_mem c hx))
    refine ⟨l ++ F', c'' :: R', ?_, ?_, List.Forall₂.cons ⟨hty, hsz, hden⟩ hfa⟩
    · rw [flatten_table_cons, hfl, except_ok_bind, hflt, except_ok_bind]
    · exact unflatten_table_cons_ok _ _ _ _ _ _ (hunf F') hunft

/-- The numeric member of test `SingleLevelStructWithNulls` (null at 0). -/
def c1_nums_member : ColumnView :=
  .mk .fixed_width 7 (some ⟨[false, true, true, true, true, true, true], 0⟩)
    [0, 1, 22, 333, 44, 55, 66] 0 .nil

/-- The strings member of test `SingleLevelStructWithNulls` (null at 1). -/
def c1_strings_member : ColumnView :=
  .mk .string 7 (some ⟨[true, false, true, true, true, true, true], 0⟩)
    [0, 1, 22, 333, 4444, 55555, 666666] 0 .nil

/-- The struct column of test `SingleLevelStructWithNulls` (null at 2). -/
def c1_struct_col : ColumnView :=
  .mk .struct 7 (some ⟨[true, true, false, true, true, true, true], 0⟩) [] 0
    (.cons c1_nums_member (.cons c1_strings_member .nil))

/-- The free-standing numeric column of the same test (null at 6). -/
def c1_nums_col : ColumnView :=
  .mk .fixed_width 7 (some ⟨[true, true, true, true, true, true, false], 0⟩)
    [0, 1, 2, 3, 4, 5, 6] 0 .nil

/-- The table of test `SingleLevelStructWithNulls`. -/
def c1_table : List ColumnView := [c1_nums_col, c1_struct_col]

/-- C1 witness: the round trip at the concrete table of test
`SingleLevelStructWithNulls`. -/
theorem C1_round_trip_witness :
    (∀ c ∈ c1_table, wf_view c = true ∧ has_list_view c = false) ∧
    (∃ F R, flatten_nested_columns c1_table .FORCE = .ok F ∧
      unflatten_nested_columns F c1_table = .ok R ∧
      List.Forall₂ (fun r t => r.ty = t.ty ∧ r.size = t.size ∧
        ∀ i, i < t.size → denote_view r i = denote_view t i) R c1_table) :=
  ⟨by decide, C1_round_trip c1_table (by decide)⟩
